import Mathlib

/-!
Verification development for the local-first sync engine: the authority
(`ServerLibrary` in packages/react/src/hooks.tsx after the document break),
its store collaborators (OperationLog, BaselineStore, ReplicaRegistry —
interfaces given in the design document §4.1–4.3), the client-side
operation supersession (§4.5.1) and the OID range helpers.

Timestamps (HLC) and OIDs are strings compared byte-wise, embedded as
`String` with its lexicographic linear order.
-/

namespace Verdant

/-- Byte-wise (code-point lexicographic) strict order on strings, the order
the source uses for HLC timestamps and OIDs (`>` / `<` on JS strings). -/
def strLt (a b : String) : Prop := a.data < b.data

instance (a b : String) : Decidable (strLt a b) :=
  inferInstanceAs (Decidable (a.data < b.data))

/-- Byte-wise non-strict order on strings. -/
def strLe (a b : String) : Prop := ¬ strLt b a

instance (a b : String) : Decidable (strLe a b) :=
  inferInstanceAs (Decidable (¬ strLt b a))

/-- Byte-wise maximum of two strings. -/
def maxS (a b : String) : String := if strLt a b then b else a

/-- Byte-wise minimum of two strings. -/
def minS (a b : String) : String := if strLt b a then b else a

/-- JSON-like primitive or reference value stored in a snapshot field.
Sub-objects are flattened into separate OIDs and referenced with `vref`. -/
inductive Value where
  | vstr (s : String)
  | vint (n : Int)
  | vbool (b : Bool)
  | vnull
  | vref (id : String)
deriving DecidableEq

/-- Per-OID snapshot: a flat object or array (nesting is via refs). -/
inductive Snapshot where
  | obj (fields : List (String × Value))
  | arr (items : List Value)
deriving DecidableEq

/-- Operation payloads (the wire `data` field), design document §3. -/
inductive OpData where
  | set (field : String) (value : Value)
  | del (field : String)
  | listInsert (index : Nat) (value : Value)
  | listMove (fromIdx toIdx : Nat)
  | listDelete (index : Nat)
  | init (snapshot : Snapshot)
deriving DecidableEq

/-- Wire-shape operation as carried in client messages: no replicaId. -/
structure WireOp where
  oid : String
  timestamp : String
  data : OpData
deriving DecidableEq

/-- Operation as stored in the authority's OperationLog (OperationHistoryItem):
the wire shape plus the originating replicaId. -/
structure ServerOp where
  oid : String
  timestamp : String
  replicaId : String
  data : OpData
deriving DecidableEq

/-- Document baseline: compacted snapshot with last-included timestamp. -/
structure Baseline where
  oid : String
  snapshot : Snapshot
  timestamp : String
deriving DecidableEq

inductive ReplicaType where
  | realtime
  | push
  | pull
  | readonlyRealtime
  | readonlyPull
deriving DecidableEq

/-- Registry row for a replica. The source stores the owning user id in the
`clientId` column; `ackedLogicalTime` is the highest acknowledged timestamp. -/
structure ReplicaEntry where
  replicaId : String
  clientId : String
  type : ReplicaType
  ackedLogicalTime : Option String
  lastSeen : Nat
deriving DecidableEq

/-- Verified token data accompanying every client message. -/
structure TokenInfo where
  userId : String
  type : ReplicaType
deriving DecidableEq

/-- In-memory presence record kept by the authority, keyed by userId. -/
structure PresenceEntry where
  presence : String
  replicaId : String
  profile : String
  id : String
deriving DecidableEq

/-- Payload of the authority's `sync-resp` message. -/
structure SyncResp where
  operations : List WireOp
  baselines : List Baseline
  provideChangesSince : Option String
  globalAckTimestamp : Option String
  peerPresence : List (String × PresenceEntry)
  overwriteLocalData : Bool
deriving DecidableEq

/-- Authority-to-client payloads. -/
inductive ServerPayload where
  | forbidden
  | opRe (operations : List WireOp) (baselines : List Baseline)
      (replicaId : String) (globalAckTimestamp : Option String)
  | globalAckMsg (timestamp : String)
  | syncResp (resp : SyncResp)
  | heartbeatResponse
  | presenceChanged (replicaId : String) (userId : String)
      (presence : String) (profile : String)
  | presenceOffline (replicaId : String) (userId : String)
deriving DecidableEq

/-- Outbound deliveries: a targeted send or a library-wide broadcast that
omits the listed client keys. -/
inductive OutMessage where
  | sendTo (clientKey : String) (payload : ServerPayload)
  | broadcast (payload : ServerPayload) (omitKeys : List String)
deriving DecidableEq

/-- Client-to-authority messages dispatched by `ServerLibrary.receive`. -/
inductive ClientMessage where
  | op (replicaId : String) (operations : List WireOp)
  | sync (replicaId : String) (resyncAll : Bool) (timestamp : String)
  | syncStep2 (replicaId : String) (operations : List WireOp)
      (baselines : List Baseline) (timestamp : String)
  | ack (replicaId : String) (timestamp : String)
  | heartbeat (replicaId : String)
  | presenceUpdate (replicaId : String) (presence : String)
deriving DecidableEq

def ClientMessage.replicaId : ClientMessage → String
  | .op r _ => r
  | .sync r _ _ => r
  | .syncStep2 r _ _ _ => r
  | .ack r _ => r
  | .heartbeat r => r
  | .presenceUpdate r _ => r

/-- Whole authority state for one library: the three persistent stores, the
in-memory presence map, and the rebase-scheduling fields of `ServerLibrary`
(`pendingRebaseTimeout`, plus a count of passes scheduled via setTimeout). -/
structure ServerState where
  log : List ServerOp
  baselines : List Baseline
  replicas : List ReplicaEntry
  presences : List (String × PresenceEntry)
  pendingRebaseTimeout : Option Unit
  scheduledRebases : Nat
deriving DecidableEq

/-! ## ReplicaRegistry (modelled from the spec §4.3; Replicas.js is not under src/) -/

/-- Modelled from the spec: a replica is truant when `now − lastSeen`
exceeds the configured threshold. -/
def isTruant (r : ReplicaEntry) (now threshold : Nat) : Bool :=
  threshold < now - r.lastSeen

def ReplicaType.isReadOnly : ReplicaType → Bool
  | .readonlyRealtime => true
  | .readonlyPull => true
  | _ => false

/-- Registry entries that gate compaction: non-read-only and either
non-truant or listed in the active override. -/
def qualifiesForAck (now threshold : Nat) (activeOverride : List String)
    (r : ReplicaEntry) : Bool :=
  (activeOverride.contains r.replicaId || !(isTruant r now threshold))
    && !r.type.isReadOnly

def minString : List String → Option String
  | [] => none
  | s :: rest =>
    match minString rest with
    | none => some s
    | some m => some (minS s m)

/-- Modelled from the spec: `getGlobalAck(activeOverride?)` returns the
minimum `ackedTimestamp` across all non-truant, non-read-only replicas;
`activeOverride` adds currently-connected replicas regardless of truancy;
null if any qualifying replica has never acknowledged anything. -/
def getGlobalAck (replicas : List ReplicaEntry) (now threshold : Nat)
    (activeOverride : List String) : Option String :=
  let qualifying := replicas.filter (qualifiesForAck now threshold activeOverride)
  if qualifying.isEmpty then none
  else if qualifying.any (fun r => r.ackedLogicalTime.isNone) then none
  else minString (qualifying.filterMap (fun r => r.ackedLogicalTime))

/-- Raise an optional acknowledged timestamp to at least `t`. -/
def raiseAck (cur : Option String) (t : String) : String :=
  match cur with
  | none => t
  | some c => maxS c t

/-- Modelled from the spec: `updateAcknowledged(replicaId, timestamp)` sets
`ackedTimestamp = max(current, timestamp)`. -/
def regUpdateAcknowledged (replicas : List ReplicaEntry) (rid ts : String) :
    List ReplicaEntry :=
  replicas.map (fun r =>
    if r.replicaId = rid then
      { r with ackedLogicalTime := some (raiseAck r.ackedLogicalTime ts) }
    else r)

/-- Modelled from the spec: `updateLastSeen(replicaId)`. -/
def regUpdateLastSeen (replicas : List ReplicaEntry) (rid : String) (now : Nat) :
    List ReplicaEntry :=
  replicas.map (fun r => if r.replicaId = rid then { r with lastSeen := now } else r)

/-- Modelled from the spec: `delete(replicaId)`, used on `resyncAll`. -/
def regDelete (replicas : List ReplicaEntry) (rid : String) : List ReplicaEntry :=
  replicas.filter (fun r => r.replicaId ≠ rid)

inductive ReplicaStatus where
  | fresh
  | existing
  | truant
deriving DecidableEq

/-- Modelled from the spec: `getOrCreate(replicaId, tokenInfo)` returns the
status ("new" is `fresh` here), the row, and the updated registry. -/
def getOrCreate (replicas : List ReplicaEntry) (rid : String) (info : TokenInfo)
    (now threshold : Nat) : ReplicaStatus × ReplicaEntry × List ReplicaEntry :=
  match replicas.find? (fun r => r.replicaId = rid) with
  | some r => (if isTruant r now threshold then .truant else .existing, r, replicas)
  | none =>
    let entry : ReplicaEntry :=
      { replicaId := rid, clientId := info.userId, type := info.type,
        ackedLogicalTime := none, lastSeen := now }
    (.fresh, entry, replicas ++ [entry])

def findReplica (replicas : List ReplicaEntry) (rid : String) : Option ReplicaEntry :=
  replicas.find? (fun r => r.replicaId = rid)

/-! ## OperationLog (modelled from the spec §4.1; OperationHistory.js is not under src/) -/

/-- Modelled from the spec: insertion is idempotent on `(oid, timestamp)` —
a duplicate tuple is silently ignored. -/
def opInsert (log : List ServerOp) (op : ServerOp) : List ServerOp :=
  if log.any (fun o => o.oid = op.oid && o.timestamp = op.timestamp) then log
  else log ++ [op]

/-- Modelled from the spec: `insertAll(replicaId, ops)` over wire ops. -/
def opsInsertAll (log : List ServerOp) (replicaId : String) (ops : List WireOp) :
    List ServerOp :=
  ops.foldl
    (fun l w =>
      opInsert l { oid := w.oid, timestamp := w.timestamp,
                   replicaId := replicaId, data := w.data })
    log

/-- Timestamp order used for log retrieval. -/
def tsLe (a b : ServerOp) : Prop := strLe a.timestamp b.timestamp

instance : DecidableRel tsLe := fun a b =>
  inferInstanceAs (Decidable (strLe a.timestamp b.timestamp))

instance : IsTotal ServerOp tsLe :=
  ⟨fun a b =>
    (le_total a.timestamp.data b.timestamp.data).imp
      (fun h => not_lt.mpr h) (fun h => not_lt.mpr h)⟩

instance : IsTrans ServerOp tsLe :=
  ⟨fun _ _ _ h1 h2 =>
    not_lt.mpr (le_trans (not_lt.mp h1) (not_lt.mp h2))⟩

def sortOps (l : List ServerOp) : List ServerOp := l.insertionSort tsLe

/-- Modelled from the spec: `getBefore(timestamp)` returns all operations
with a strictly smaller timestamp, ascending. -/
def getBefore (t : String) (log : List ServerOp) : List ServerOp :=
  sortOps (log.filter (fun o => strLt o.timestamp t))

/-- Modelled from the spec: `getAfter(timestamp | null)` returns all
operations strictly greater (all of them when null), ascending. -/
def getAfter (t : Option String) (log : List ServerOp) : List ServerOp :=
  match t with
  | none => sortOps log
  | some ts => sortOps (log.filter (fun o => strLt ts o.timestamp))

/-- Modelled from the spec: `drop(ops)` removes the given set, matching on
`(oid, timestamp)` (the log's primary key). -/
def dropAll (log : List ServerOp) (ops : List ServerOp) : List ServerOp :=
  log.filter (fun o =>
    !(ops.any (fun d => d.oid = o.oid && d.timestamp = o.timestamp)))

/-! ## BaselineStore (modelled from the spec §4.2; Baselines.js is not under src/) -/

def findBaseline (bs : List Baseline) (oid : String) : Option Baseline :=
  bs.find? (fun b => b.oid = oid)

def upsertBaseline (bs : List Baseline) (b : Baseline) : List Baseline :=
  if bs.any (fun x => x.oid = b.oid) then
    bs.map (fun x => if x.oid = b.oid then b else x)
  else bs ++ [b]

def baselinesInsertAll (bs : List Baseline) (incoming : List Baseline) :
    List Baseline :=
  incoming.foldl upsertBaseline bs

/-- Modelled from the spec: `getAllAfter(timestamp | null)`. -/
def getAllAfter (t : Option String) (bs : List Baseline) : List Baseline :=
  match t with
  | none => bs
  | some ts => bs.filter (fun b => strLt ts b.timestamp)

/-! ## Snapshot application (modelled from the spec §3, §4.5.5) -/

def setField (fields : List (String × Value)) (f : String) (v : Value) :
    List (String × Value) :=
  if fields.any (fun p => p.1 = f) then
    fields.map (fun p => if p.1 = f then (f, v) else p)
  else fields ++ [(f, v)]

def removeField (fields : List (String × Value)) (f : String) :
    List (String × Value) :=
  fields.filter (fun p => p.1 ≠ f)

def listInsertAt (l : List Value) (i : Nat) (v : Value) : List Value :=
  l.take i ++ v :: l.drop i

def listDeleteAt (l : List Value) (i : Nat) : List Value :=
  l.take i ++ l.drop (i + 1)

/-- Moves referencing an absent position are no-ops (spec §4.5.5). -/
def listMoveAt (l : List Value) (fromIdx toIdx : Nat) : List Value :=
  match l[fromIdx]? with
  | none => l
  | some v => listInsertAt (listDeleteAt l fromIdx) toIdx v

/-- Modelled from the spec: apply one operation payload to a snapshot
(`applyPatch` in the common package, not under src/). -/
def applyOp (s : Snapshot) (d : OpData) : Snapshot :=
  match d, s with
  | .init snap, _ => snap
  | .set f v, .obj fields => .obj (setField fields f v)
  | .set _ _, .arr items => .arr items
  | .del f, .obj fields => .obj (removeField fields f)
  | .del _, .arr items => .arr items
  | .listInsert i v, .arr items => .arr (listInsertAt items i v)
  | .listInsert _ _, .obj fields => .obj fields
  | .listMove i j, .arr items => .arr (listMoveAt items i j)
  | .listMove _ _, .obj fields => .obj fields
  | .listDelete i, .arr items => .arr (listDeleteAt items i)
  | .listDelete _, .obj fields => .obj fields

/-- Apply operations in order to an optional existing snapshot
(empty object when none, spec §4.2). -/
def applyOps (base : Option Snapshot) (ops : List ServerOp) : Snapshot :=
  ops.foldl (fun s o => applyOp s o.data) (base.getD (.obj []))

/-- Maximum operation timestamp (the empty string is the bottom of the
byte-wise order). -/
def maxTs (ops : List ServerOp) : String :=
  ops.foldl (fun acc o => maxS acc o.timestamp) ""

/-- Modelled from the spec: `applyOperations(oid, ops)` computes the new
snapshot by applying `ops` to the existing baseline (or empty) and writes a
baseline whose timestamp is the maximum op timestamp. -/
def applyOperationsB (bs : List Baseline) (oid : String) (ops : List ServerOp) :
    List Baseline :=
  upsertBaseline bs
    { oid := oid,
      snapshot := applyOps ((findBaseline bs oid).map Baseline.snapshot) ops,
      timestamp := maxTs ops }

/-! ## ServerLibrary (translated from the source) -/

/-- Source `hasWriteAccess`: the token type is neither read-only kind. -/
def hasWriteAccess (info : TokenInfo) : Bool :=
  !(info.type == ReplicaType.readonlyPull)
    && !(info.type == ReplicaType.readonlyRealtime)

/-- Source `validateReplicaAccess`: ok unless the replica exists and belongs
to another user (in which case the source throws). -/
def validateReplicaAccess (replicas : List ReplicaEntry) (replicaId : String)
    (info : TokenInfo) : Bool :=
  match replicas.find? (fun r => r.replicaId = replicaId) with
  | some replica => decide (replica.clientId = info.userId)
  | none => true

/-- Source `enqueueRebase`: schedules a pass via setTimeout only when
`pendingRebaseTimeout` is unset; the source never assigns that field, so it
stays as initialised and each call that sees it unset schedules a pass. -/
def enqueueRebase (st : ServerState) : ServerState :=
  match st.pendingRebaseTimeout with
  | none => { st with scheduledRebases := st.scheduledRebases + 1 }
  | some _ => st

/-- Source `rebroadcastOperations`: skipped entirely when both lists are
empty; otherwise one `op-re` broadcast omitting the sender's client key. -/
def rebroadcastOperations (st : ServerState) (clientKey replicaId : String)
    (ops : List WireOp) (baselines : List Baseline) (now threshold : Nat) :
    List OutMessage :=
  if ops.isEmpty && baselines.isEmpty then []
  else
    [.broadcast
      (.opRe ops baselines replicaId (getGlobalAck st.replicas now threshold []))
      [clientKey]]

/-- Source `handleOperation`: write access required; insert in a transaction,
enqueue a rebase, rebroadcast to the library except the sender. -/
def handleOperation (st : ServerState) (replicaId : String)
    (operations : List WireOp) (clientKey : String) (info : TokenInfo)
    (now threshold : Nat) : ServerState × List OutMessage :=
  if hasWriteAccess info then
    let st1 := { st with log := opsInsertAll st.log replicaId operations }
    let st2 := enqueueRebase st1
    (st2, rebroadcastOperations st2 clientKey replicaId operations [] now threshold)
  else (st, [.sendTo clientKey .forbidden])

/-- Source `updateAcknowledged` on the library: reads the global ack before
and after the registry update and broadcasts `global-ack` when the new value
is non-null and differs from the prior one. -/
def slUpdateAcknowledged (st : ServerState) (replicaId ts : String)
    (now threshold : Nat) : ServerState × List OutMessage :=
  let priorGlobalAck := getGlobalAck st.replicas now threshold []
  let replicas1 := regUpdateAcknowledged st.replicas replicaId ts
  let newGlobalAck := getGlobalAck replicas1 now threshold []
  let msgs : List OutMessage :=
    match newGlobalAck with
    | some n =>
      if priorGlobalAck ≠ some n then [.broadcast (.globalAckMsg n) []] else []
    | none => []
  ({ st with replicas := replicas1 }, msgs)

/-- Source `handleAck`. -/
def handleAck (st : ServerState) (replicaId ts : String) (now threshold : Nat) :
    ServerState × List OutMessage :=
  slUpdateAcknowledged st replicaId ts now threshold

/-- Source `handleSyncStep2`: write access required; persist baselines then
operations; rebroadcast; ack from the last operation's timestamp, falling
back to the message timestamp when there are no operations. -/
def handleSyncStep2 (st : ServerState) (replicaId : String)
    (operations : List WireOp) (baselines : List Baseline) (msgTimestamp : String)
    (clientKey : String) (info : TokenInfo) (now threshold : Nat) :
    ServerState × List OutMessage :=
  if hasWriteAccess info then
    let st1 := { st with
      baselines := baselinesInsertAll st.baselines baselines,
      log := opsInsertAll st.log replicaId operations }
    let rebroadcastMsgs :=
      rebroadcastOperations st1 clientKey replicaId operations baselines now threshold
    let ackTs :=
      match operations.getLast? with
      | some lastOp => lastOp.timestamp
      | none => msgTimestamp
    let res := slUpdateAcknowledged st1 replicaId ackTs now threshold
    (res.1, rebroadcastMsgs ++ res.2)
  else (st, [.sendTo clientKey .forbidden])

/-- Registry after the optional `resyncAll` reset at the top of `handleSync`. -/
def syncRegistryAfterReset (st : ServerState) (replicaId : String)
    (resyncAll : Bool) : List ReplicaEntry :=
  if resyncAll then regDelete st.replicas replicaId else st.replicas

def syncGetOrCreate (st : ServerState) (replicaId : String) (resyncAll : Bool)
    (info : TokenInfo) (now threshold : Nat) :
    ReplicaStatus × ReplicaEntry × List ReplicaEntry :=
  getOrCreate (syncRegistryAfterReset st replicaId resyncAll) replicaId info
    now threshold

def syncStatus (st : ServerState) (replicaId : String) (resyncAll : Bool)
    (info : TokenInfo) (now threshold : Nat) : ReplicaStatus :=
  (syncGetOrCreate st replicaId resyncAll info now threshold).1

def syncChangesSince (st : ServerState) (replicaId : String) (resyncAll : Bool)
    (info : TokenInfo) (now threshold : Nat) : Option String :=
  if syncStatus st replicaId resyncAll info now threshold = .existing then
    (syncGetOrCreate st replicaId resyncAll info now threshold).2.1.ackedLogicalTime
  else none

/-- Source `handleSync` response payload: gathers changes since the client's
last ack, decides `overwriteLocalData` from `replicaShouldReset` and
`isEmptyLibrary`. Also returns the updated registry. -/
def handleSyncResp (st : ServerState) (replicaId : String) (resyncAll : Bool)
    (info : TokenInfo) (now threshold : Nat) : SyncResp × List ReplicaEntry :=
  let got := syncGetOrCreate st replicaId resyncAll info now threshold
  let status := got.1
  let clientReplicaInfo := got.2.1
  let replicas1 := got.2.2
  let changesSince := syncChangesSince st replicaId resyncAll info now threshold
  let ops := getAfter changesSince st.log
  let baselines := getAllAfter changesSince st.baselines
  let replicaShouldReset := resyncAll || !(status == ReplicaStatus.existing)
  let isEmptyLibrary := changesSince.isNone && ops.isEmpty && baselines.isEmpty
  ({ operations := ops.map (fun o => { oid := o.oid, timestamp := o.timestamp, data := o.data }),
     baselines := baselines,
     provideChangesSince := clientReplicaInfo.ackedLogicalTime,
     globalAckTimestamp := getGlobalAck replicas1 now threshold [],
     peerPresence := st.presences,
     overwriteLocalData := replicaShouldReset && !isEmptyLibrary },
   replicas1)

/-- Source `handleSync`. -/
def handleSync (st : ServerState) (replicaId : String) (resyncAll : Bool)
    (clientKey : String) (info : TokenInfo) (now threshold : Nat) :
    ServerState × List OutMessage :=
  let res := handleSyncResp st replicaId resyncAll info now threshold
  ({ st with replicas := res.2 }, [.sendTo clientKey (.syncResp res.1)])

/-- Source `handleHeartbeat`. -/
def handleHeartbeat (st : ServerState) (clientKey : String) :
    ServerState × List OutMessage :=
  (st, [.sendTo clientKey .heartbeatResponse])

def presenceSet (ps : List (String × PresenceEntry)) (userId : String)
    (e : PresenceEntry) : List (String × PresenceEntry) :=
  if ps.any (fun p => p.1 = userId) then
    ps.map (fun p => if p.1 = userId then (userId, e) else p)
  else ps ++ [(userId, e)]

/-- Source `handlePresenceUpdate`: store presence keyed by userId and
broadcast `presence-changed` to everyone, the sender included. -/
def handlePresenceUpdate (st : ServerState) (replicaId presence : String)
    (info : TokenInfo) (profiles : String → String) :
    ServerState × List OutMessage :=
  let entry : PresenceEntry :=
    { presence := presence, replicaId := replicaId,
      profile := profiles info.userId, id := info.userId }
  ({ st with presences := presenceSet st.presences info.userId entry },
   [.broadcast
     (.presenceChanged replicaId info.userId presence (profiles info.userId)) []])

/-- Replica ids of currently-connected presences (Object.values of the map). -/
def activePresenceIds (st : ServerState) : List String :=
  st.presences.map (fun p => p.2.replicaId)

def bucketAdd (buckets : List (String × List ServerOp)) (oid : String)
    (op : ServerOp) : List (String × List ServerOp) :=
  match buckets with
  | [] => [(oid, [op])]
  | (k, l) :: rest =>
    if k = oid then (k, l ++ [op]) :: rest else (k, l) :: bucketAdd rest oid op

/-- Source rebase bucketing loop: an operation is added to its OID's bucket
when the OID has no hard stop yet and the timestamp is before the global
ack; otherwise the OID is hard-stopped. -/
def rebaseCollect (globalAck : String) :
    List ServerOp → List (String × List ServerOp) → List String →
      List (String × List ServerOp) × List String
  | [], buckets, hardStops => (buckets, hardStops)
  | op :: rest, buckets, hardStops =>
    if !(hardStops.contains op.oid) && decide (strLt op.timestamp globalAck) then
      rebaseCollect globalAck rest (bucketAdd buckets op.oid op) hardStops
    else
      rebaseCollect globalAck rest buckets (op.oid :: hardStops)

/-- One bucket of the source rebase loop body: `applyOperations` then `drop`. -/
def rebaseStep (s : ServerState) (p : String × List ServerOp) : ServerState :=
  { s with baselines := applyOperationsB s.baselines p.1 p.2,
           log := dropAll s.log p.2 }

/-- Source `rebase`: compute the global ack with the active presence
override, abort when null, bucket `getBefore(globalAck)`, fold each bucket
into its baseline and drop it, and broadcast `global-ack` when any bucket
was rebased. -/
def rebase (st : ServerState) (now threshold : Nat) :
    ServerState × List OutMessage :=
  match getGlobalAck st.replicas now threshold (activePresenceIds st) with
  | none => (st, [])
  | some globalAck =>
    let ops := getBefore globalAck st.log
    let buckets := (rebaseCollect globalAck ops [] []).1
    let st1 := buckets.foldl rebaseStep st
    let msgs : List OutMessage :=
      if buckets.isEmpty then [] else [.broadcast (.globalAckMsg globalAck) []]
    (st1, msgs)

/-- Source `receive`: validate replica ownership first (throwing on
violation, modelled as `Except.error`), dispatch by message type, then
update the replica's last-seen time. -/
def receive (st : ServerState) (msg : ClientMessage) (clientKey : String)
    (info : TokenInfo) (now threshold : Nat) (profiles : String → String) :
    Except String (ServerState × List OutMessage) :=
  if validateReplicaAccess st.replicas msg.replicaId info then
    let res :=
      match msg with
      | .op rid operations =>
        handleOperation st rid operations clientKey info now threshold
      | .sync rid resyncAll _ =>
        handleSync st rid resyncAll clientKey info now threshold
      | .syncStep2 rid operations baselines ts =>
        handleSyncStep2 st rid operations baselines ts clientKey info now threshold
      | .ack rid ts => handleAck st rid ts now threshold
      | .heartbeat _ => handleHeartbeat st clientKey
      | .presenceUpdate rid presence =>
        handlePresenceUpdate st rid presence info profiles
    .ok
      ({ res.1 with replicas := regUpdateLastSeen res.1.replicas msg.replicaId now },
       res.2)
  else .error "replica does not belong to client"

/-- Modelled from the spec: the Server request handler (not under src/)
catches the replica-ownership error thrown by `ServerLibrary.receive` and
responds `forbidden` to the sender ("a replica id reappears under a
different user → authority rejects"). -/
def serverReceive (st : ServerState) (msg : ClientMessage) (clientKey : String)
    (info : TokenInfo) (now threshold : Nat) (profiles : String → String) :
    ServerState × List OutMessage :=
  match receive st msg clientKey info now threshold profiles with
  | .ok r => r
  | .error _ => (st, [.sendTo clientKey .forbidden])

/-! ## Elementary store writes issued by the authority

The source runs `handleOperation`'s insert inside `db.transaction`, but
`handleSyncStep2`'s three writes and the rebase loop's per-bucket pair of
writes are issued as separate store calls with no enclosing transaction, so
the state after a prefix of the sequence is observable if an error occurs
mid-way. -/

inductive StoreWrite where
  | applyBase (oid : String) (ops : List ServerOp)
  | dropOps (ops : List ServerOp)
  | insertBaselines (bs : List Baseline)
  | insertOps (replicaId : String) (ops : List WireOp)
deriving DecidableEq

def execWrite (st : ServerState) : StoreWrite → ServerState
  | .applyBase oid ops =>
    { st with baselines := applyOperationsB st.baselines oid ops }
  | .dropOps ops => { st with log := dropAll st.log ops }
  | .insertBaselines bs =>
    { st with baselines := baselinesInsertAll st.baselines bs }
  | .insertOps rid ops => { st with log := opsInsertAll st.log rid ops }

/-- Write sequence the rebase pass issues: per bucket, `applyOperations`
then `drop`, each a separate store call. -/
def rebaseWritePlan (st : ServerState) (now threshold : Nat) : List StoreWrite :=
  match getGlobalAck st.replicas now threshold (activePresenceIds st) with
  | none => []
  | some globalAck =>
    ((rebaseCollect globalAck (getBefore globalAck st.log) [] []).1).foldr
      (fun p acc => StoreWrite.applyBase p.1 p.2 :: StoreWrite.dropOps p.2 :: acc)
      []

/-! ## Client-side supersession (modelled from the spec §4.5.1; the
ReplicaEngine batching code is not under src/, only its test) -/

/-- Operation pending in the client's uncommitted batch buffer; buffer order
is creation (timestamp) order. -/
structure ClientOp where
  oid : String
  data : OpData
deriving DecidableEq

def OpData.isInit : OpData → Bool
  | .init _ => true
  | _ => false

/-- Effect key of an operation when it has one: the field name for `set`
and `delete`; list mutations have none (they never supersede). -/
def fieldKey : OpData → Option String
  | .set f _ => some f
  | .del f => some f
  | _ => none

/-- Modelled from the spec: `b` (later) supersedes `a` (earlier) when they
target the same OID and either `b` initialises the whole object or both
carry the same field effect key (`delete` shares its key with `set`). -/
def supersedes (b a : ClientOp) : Bool :=
  decide (b.oid = a.oid)
    && (b.data.isInit
        ||
        match fieldKey b.data, fieldKey a.data with
        | some fb, some fa => decide (fb = fa)
        | _, _ => false)

/-- Modelled from the spec: before the batch commits, drop every operation
superseded by a later one in the buffer. -/
def supersedeBatch : List ClientOp → List ClientOp
  | [] => []
  | a :: rest =>
    if rest.any (fun b => supersedes b a) then supersedeBatch rest
    else a :: supersedeBatch rest

/-- Outbound-op selector for one `(oid, field)` effect key. -/
def onKey (o f : String) (op : ClientOp) : Bool :=
  decide (op.oid = o) && decide (fieldKey op.data = some f)

/-! ## OIDs (modelled from the spec §3; oids.js is not under src/, only its
test) -/

/-- Modelled from the spec: sub-object OID allocation under a root:
`<root>.<fieldPath>:<localId>`. -/
def makeSubOid (root fieldPath localId : String) : String :=
  root ++ "." ++ fieldPath ++ ":" ++ localId

/-- Modelled from the spec and its test: the OID range of a root document is
the pair of the root itself and the root followed by a colon and U+FFFF. -/
def getOidRange (root : String) : String × String :=
  (root, root ++ ":\uFFFF")

/-! ## Message predicates -/

def ServerPayload.isOpRe : ServerPayload → Bool
  | .opRe _ _ _ _ => true
  | _ => false

def OutMessage.isOpReMsg : OutMessage → Bool
  | .sendTo _ p => p.isOpRe
  | .broadcast p _ => p.isOpRe

/-- Operations of `log` on `k` strictly before `T`, in ascending HLC order:
the set a rebase pass with global ack `T` folds into `k`'s baseline. -/
def droppedFor (T : String) (log : List ServerOp) (k : String) : List ServerOp :=
  (getBefore T log).filter (fun o => o.oid = k)

/-- Has the global ack strictly advanced from `prior` to `next`? -/
def ackAdvanced (prior next : Option String) : Bool :=
  match prior, next with
  | _, none => false
  | none, some _ => true
  | some p, some n => decide (strLt p n)

/-! ## Sample data used by witnesses and concrete demonstrations -/

def sampleOp1 : ServerOp :=
  { oid := "items/a", timestamp := "03", replicaId := "r1",
    data := .set "content" (.vstr "apples") }

def sampleReplica1 : ReplicaEntry :=
  { replicaId := "r1", clientId := "userA", type := .realtime,
    ackedLogicalTime := some "05", lastSeen := 10 }

def sampleState : ServerState :=
  { log := [sampleOp1], baselines := [], replicas := [sampleReplica1],
    presences := [], pendingRebaseTimeout := none, scheduledRebases := 0 }

def emptyState : ServerState :=
  { log := [], baselines := [], replicas := [], presences := [],
    pendingRebaseTimeout := none, scheduledRebases := 0 }

def writeToken : TokenInfo := { userId := "userA", type := .realtime }

def otherUserToken : TokenInfo := { userId := "userB", type := .realtime }

def readOnlyToken : TokenInfo := { userId := "userA", type := .readonlyPull }

def sampleWireOp : WireOp :=
  { oid := "items/a", timestamp := "06", data := .set "content" (.vstr "pears") }

def sampleBatch : List ClientOp :=
  [⟨"items/a", OpData.set "content" (Value.vstr "0")⟩,
   ⟨"items/a", OpData.set "content" (Value.vstr "1")⟩,
   ⟨"items/a", OpData.set "purchased" (Value.vbool true)⟩,
   ⟨"items/a", OpData.del "content"⟩]

/-- Lookup of one OID's bucket in the rebase bucketing. -/
def bucketGet (buckets : List (String × List ServerOp)) (k : String) :
    Option (List ServerOp) :=
  (buckets.find? (fun p => p.1 = k)).map (fun p => p.2)

/-- Plain insertion-order grouping by OID; equals the rebase bucketing when
no hard stop ever fires. -/
def groupFold (buckets : List (String × List ServerOp)) (l : List ServerOp) :
    List (String × List ServerOp) :=
  l.foldl (fun b o => bucketAdd b o.oid o) buckets

def bucketKeys (buckets : List (String × List ServerOp)) : List String :=
  buckets.map (fun p => p.1)

/-- Pointwise form of `regUpdateAcknowledged`'s update. -/
def ackRaised (rid ts : String) (r : ReplicaEntry) : ReplicaEntry :=
  if r.replicaId = rid then
    { r with ackedLogicalTime := some (raiseAck r.ackedLogicalTime ts) }
  else r

/-! # Theorems -/

theorem rebaseStep_eq_two_writes (st : ServerState) (p : String × List ServerOp) :
    rebaseStep st p =
      execWrite (execWrite st (StoreWrite.applyBase p.1 p.2)) (StoreWrite.dropOps p.2) :=
  rfl

theorem foldl_rebaseStep_eq_execWrites (buckets : List (String × List ServerOp)) :
    ∀ st : ServerState,
      buckets.foldl rebaseStep st =
        (buckets.foldr
            (fun p acc => StoreWrite.applyBase p.1 p.2 :: StoreWrite.dropOps p.2 :: acc)
            []).foldl execWrite st := by
  induction buckets with
  | nil => intro st; rfl
  | cons p rest ih =>
    intro st
    simp only [List.foldl_cons, List.foldr_cons]
    rw [rebaseStep_eq_two_writes]
    exact ih _

/-- The rebase pass equals the fold of its write plan: per bucket, the
baseline write and the drop are two separate store writes. -/
theorem rebase_eq_writePlan (st : ServerState) (now threshold : Nat) :
    (rebase st now threshold).1 =
      (rebaseWritePlan st now threshold).foldl execWrite st := by
  unfold rebase rebaseWritePlan
  cases h : getGlobalAck st.replicas now threshold (activePresenceIds st) with
  | none => rfl
  | some globalAck =>
    simp only
    exact foldl_rebaseStep_eq_execWrites _ st

/-- C4: the spec requires sync-step2 persistence, the rebase
applyOperations-plus-drop pair, and op ingestion to each run as one atomic
transaction. The source wraps only op ingestion in `db.transaction`; the
rebase pass issues the baseline write and the drop as two separate store
calls, so the state between them — baseline already advanced, operation
still in the log, different from both the initial and the final state — is
observable when an error interrupts the pass. -/
theorem rebase_midway_partial_state_observable :
    rebaseWritePlan sampleState 10 100 =
      [StoreWrite.applyBase "items/a" [sampleOp1], StoreWrite.dropOps [sampleOp1]] ∧
    (rebase sampleState 10 100).1 =
      (rebaseWritePlan sampleState 10 100).foldl execWrite sampleState ∧
    (execWrite sampleState (StoreWrite.applyBase "items/a" [sampleOp1])).log =
      sampleState.log ∧
    findBaseline
        (execWrite sampleState (StoreWrite.applyBase "items/a" [sampleOp1])).baselines
        "items/a" ≠ findBaseline sampleState.baselines "items/a" ∧
    execWrite sampleState (StoreWrite.applyBase "items/a" [sampleOp1]) ≠
      (rebase sampleState 10 100).1 ∧
    execWrite sampleState (StoreWrite.applyBase "items/a" [sampleOp1]) ≠ sampleState :=
  ⟨by decide, rebase_eq_writePlan sampleState 10 100, by decide, by decide,
   by decide, by decide⟩

/-- C5: the source's `enqueueRebase` guard reads `pendingRebaseTimeout`,
but the field is never assigned, so every op message schedules a fresh
rebase pass: after two op deliveries two passes are pending, not one. -/
theorem rebase_triggers_do_not_coalesce :
    (handleOperation
        (handleOperation emptyState "r1" [sampleWireOp] "ck" writeToken 10 100).1
        "r1" [sampleWireOp] "ck" writeToken 10 100).1.scheduledRebases = 2 ∧
    (handleOperation
        (handleOperation emptyState "r1" [sampleWireOp] "ck" writeToken 10 100).1
        "r1" [sampleWireOp] "ck" writeToken 10 100).1.pendingRebaseTimeout = none := by
  constructor
  · decide
  · decide

/-- C3: `overwriteLocalData` in the sync response is true exactly when the
client requested a reset or its replica's status is not `existing`, and the
library is non-empty, where emptiness is: `changesSince` null and no
gathered operations and no gathered baselines. -/
theorem sync_overwriteLocalData_iff (st : ServerState) (replicaId : String)
    (resyncAll : Bool) (info : TokenInfo) (now threshold : Nat) :
    (handleSyncResp st replicaId resyncAll info now threshold).1.overwriteLocalData
        = true ↔
      ((resyncAll = true ∨
          syncStatus st replicaId resyncAll info now threshold ≠
            ReplicaStatus.existing) ∧
        ¬(syncChangesSince st replicaId resyncAll info now threshold = none ∧
          getAfter (syncChangesSince st replicaId resyncAll info now threshold)
              st.log = [] ∧
          getAllAfter (syncChangesSince st replicaId resyncAll info now threshold)
              st.baselines = [])) := by
  simp only [handleSyncResp, syncStatus]
  generalize (syncGetOrCreate st replicaId resyncAll info now threshold).1 = s
  generalize syncChangesSince st replicaId resyncAll info now threshold = cs
  generalize getAfter cs st.log = ops
  generalize getAllAfter cs st.baselines = bls
  cases resyncAll <;> cases s <;> cases cs <;> cases ops <;> cases bls <;> simp

theorem supersedes_eq_onKey (o f : String) (a b : ClientOp)
    (ha : onKey o f a = true) (hb : b.oid = o → b.data.isInit = false) :
    supersedes b a = onKey o f b := by
  unfold onKey at ha
  rw [Bool.and_eq_true, decide_eq_true_eq, decide_eq_true_eq] at ha
  obtain ⟨hoid, hkey⟩ := ha
  unfold supersedes onKey
  rw [hoid, hkey]
  by_cases hbo : b.oid = o
  · rw [hbo, hb hbo]
    cases hk : fieldKey b.data with
    | none => simp [hk]
    | some fb => simp [hk]
  · simp [hbo]

theorem supersedeBatch_filter_onKey (o f : String) :
    ∀ batch : List ClientOp,
      (∀ op ∈ batch, op.oid = o → op.data.isInit = false) →
      (supersedeBatch batch).filter (onKey o f) =
        ((batch.filter (onKey o f)).getLast?).toList := by
  intro batch
  induction batch with
  | nil => intro _; rfl
  | cons a rest ih =>
    intro hno
    have hrest : ∀ op ∈ rest, op.oid = o → op.data.isInit = false :=
      fun op hm => hno op (List.mem_cons_of_mem _ hm)
    rw [supersedeBatch]
    by_cases ha : onKey o f a = true
    · have hiff : rest.any (fun b => supersedes b a) = true ↔
          rest.any (onKey o f) = true := by
        simp only [List.any_eq_true]
        constructor
        · rintro ⟨x, hx, hp⟩
          exact ⟨x, hx, by
            rw [← supersedes_eq_onKey o f a x ha (hrest x hx)]; exact hp⟩
        · rintro ⟨x, hx, hp⟩
          exact ⟨x, hx, by
            rw [supersedes_eq_onKey o f a x ha (hrest x hx)]; exact hp⟩
      by_cases h2 : rest.any (onKey o f) = true
      · rw [if_pos (hiff.mpr h2)]
        rw [ih hrest, List.filter_cons_of_pos ha]
        obtain ⟨b, hb, hpb⟩ := List.any_eq_true.mp h2
        have hne : rest.filter (onKey o f) ≠ [] := by
          intro hnil
          exact (List.filter_eq_nil_iff.mp hnil) b hb hpb
        cases hfil : rest.filter (onKey o f) with
        | nil => exact absurd hfil hne
        | cons c t => rw [List.getLast?_cons_cons]
      · rw [if_neg (fun hc => h2 (hiff.mp hc))]
        rw [List.filter_cons_of_pos ha, List.filter_cons_of_pos ha, ih hrest]
        have hnil : rest.filter (onKey o f) = [] := by
          cases hf : rest.filter (onKey o f) with
          | nil => rfl
          | cons c t =>
            exfalso
            apply h2
            apply List.any_eq_true.mpr
            have hc : c ∈ rest.filter (onKey o f) := by rw [hf]; exact List.mem_cons_self _ _
            exact ⟨c, List.mem_of_mem_filter hc, List.of_mem_filter hc⟩
        rw [hnil]
        rfl
    · have hfa : (a :: rest).filter (onKey o f) = rest.filter (onKey o f) :=
        List.filter_cons_of_neg ha
      rw [hfa]
      by_cases hc : rest.any (fun b => supersedes b a) = true
      · rw [if_pos hc]
        exact ih hrest
      · rw [if_neg hc]
        rw [List.filter_cons_of_neg ha]
        exact ih hrest

/-- C2: within an uncommitted batch, supersession keeps exactly the last
operation for each `(oid, field)` effect key: a run of `set`s on one field
leaves 1 outbound op carrying the last `set`'s payload, and a trailing
`delete` on the field leaves exactly 1 outbound op, the `delete` (batches
without whole-object initialisations). -/
theorem supersession_spec :
    (∀ (batch : List ClientOp) (o f : String),
        (∀ op ∈ batch, op.oid = o → op.data.isInit = false) →
        (supersedeBatch batch).filter (onKey o f) =
          ((batch.filter (onKey o f)).getLast?).toList) ∧
    (∀ (batch : List ClientOp) (o f : String) (v : Value),
        (∀ op ∈ batch, op.oid = o → op.data.isInit = false) →
        (batch.filter (onKey o f)).getLast? = some ⟨o, OpData.set f v⟩ →
        (supersedeBatch batch).filter (onKey o f) = [⟨o, OpData.set f v⟩]) ∧
    (∀ (batch : List ClientOp) (o f : String),
        (∀ op ∈ batch, op.oid = o → op.data.isInit = false) →
        (batch.filter (onKey o f)).getLast? = some ⟨o, OpData.del f⟩ →
        (supersedeBatch batch).filter (onKey o f) = [⟨o, OpData.del f⟩]) := by
  refine ⟨fun batch o f h => supersedeBatch_filter_onKey o f batch h, ?_, ?_⟩
  · intro batch o f v h hlast
    rw [supersedeBatch_filter_onKey o f batch h, hlast]
    rfl
  · intro batch o f h hlast
    rw [supersedeBatch_filter_onKey o f batch h, hlast]
    rfl

theorem supersession_spec_witness :
    (supersedeBatch sampleBatch).filter (onKey "items/a" "content") =
        [⟨"items/a", OpData.del "content"⟩] ∧
    (supersedeBatch sampleBatch).filter (onKey "items/a" "purchased") =
        [⟨"items/a", OpData.set "purchased" (Value.vbool true)⟩] :=
  ⟨supersession_spec.2.2 sampleBatch "items/a" "content" (by decide) (by decide),
   supersession_spec.2.1 sampleBatch "items/a" "purchased" (Value.vbool true)
     (by decide) (by decide)⟩

/-- C6: a message naming a replica registered to a different user is
rejected before any handler runs: the authority responds `forbidden` to the
sender and the whole library state — registry entry and OperationLog
included — is unchanged. -/
theorem replica_ownership_forbidden (st : ServerState) (msg : ClientMessage)
    (clientKey : String) (info : TokenInfo) (now threshold : Nat)
    (profiles : String → String) (r : ReplicaEntry)
    (hfind : st.replicas.find? (fun x => x.replicaId = msg.replicaId) = some r)
    (huser : r.clientId ≠ info.userId) :
    serverReceive st msg clientKey info now threshold profiles =
      (st, [.sendTo clientKey .forbidden]) := by
  have hc : decide (r.clientId = info.userId) = false :=
    decide_eq_false_iff_not.mpr huser
  unfold serverReceive receive validateReplicaAccess
  rw [hfind]
  dsimp only
  rw [hc]
  rfl

theorem replica_ownership_forbidden_witness :
    serverReceive sampleState (ClientMessage.op "r1" [sampleWireOp]) "ck"
        otherUserToken 10 100 (fun _ => "") =
      (sampleState, [.sendTo "ck" .forbidden]) :=
  replica_ownership_forbidden sampleState (ClientMessage.op "r1" [sampleWireOp])
    "ck" otherUserToken 10 100 (fun _ => "") sampleReplica1 (by decide) (by decide)

theorem findReplica_regUpdateAcknowledged (l : List ReplicaEntry) (rid ts : String) :
    findReplica (regUpdateAcknowledged l rid ts) rid =
      (findReplica l rid).map
        (fun r => { r with ackedLogicalTime := some (raiseAck r.ackedLogicalTime ts) }) := by
  induction l with
  | nil => rfl
  | cons r rest ih =>
    simp only [regUpdateAcknowledged, List.map_cons] at *
    by_cases h : r.replicaId = rid
    · rw [if_pos h]
      unfold findReplica
      rw [List.find?_cons_of_pos _ (by simpa using h),
        List.find?_cons_of_pos _ (by simpa using h)]
      rfl
    · rw [if_neg h]
      unfold findReplica
      rw [List.find?_cons_of_neg _ (by simpa using h),
        List.find?_cons_of_neg _ (by simpa using h)]
      exact ih

/-- C7: on sync-step2, a read-only token gets `forbidden` and nothing is
persisted; otherwise the message's baselines and operations are persisted,
an `op-re` carrying them is broadcast to the library minus the sender, and
the sender's acknowledged timestamp is raised to the last operation's
timestamp (the message timestamp when there are no operations). -/
theorem syncStep2_spec (st : ServerState) (replicaId : String)
    (operations : List WireOp) (baselines : List Baseline)
    (msgTimestamp clientKey : String) (info : TokenInfo) (now threshold : Nat) :
    (hasWriteAccess info = false →
      handleSyncStep2 st replicaId operations baselines msgTimestamp clientKey
          info now threshold =
        (st, [.sendTo clientKey .forbidden])) ∧
    (hasWriteAccess info = true →
      (handleSyncStep2 st replicaId operations baselines msgTimestamp clientKey
          info now threshold).1.baselines =
        baselinesInsertAll st.baselines baselines ∧
      (handleSyncStep2 st replicaId operations baselines msgTimestamp clientKey
          info now threshold).1.log =
        opsInsertAll st.log replicaId operations ∧
      (¬(operations = [] ∧ baselines = []) →
        (handleSyncStep2 st replicaId operations baselines msgTimestamp clientKey
            info now threshold).2.head? =
          some (.broadcast
            (.opRe operations baselines replicaId
              (getGlobalAck st.replicas now threshold []))
            [clientKey])) ∧
      findReplica
          (handleSyncStep2 st replicaId operations baselines msgTimestamp clientKey
            info now threshold).1.replicas replicaId =
        (findReplica st.replicas replicaId).map
          (fun r =>
            { r with ackedLogicalTime := some (raiseAck r.ackedLogicalTime
                (match operations.getLast? with
                 | some o => o.timestamp
                 | none => msgTimestamp)) })) := by
  constructor
  · intro h
    unfold handleSyncStep2
    rw [if_neg]
    simp [h]
  · intro h
    unfold handleSyncStep2
    rw [if_pos h]
    refine ⟨rfl, rfl, ?_, ?_⟩
    · intro hne
      have hcond : (operations.isEmpty && baselines.isEmpty) = false := by
        cases operations <;> cases baselines <;> simp_all
      unfold rebroadcastOperations
      rw [hcond]
      rfl
    · exact findReplica_regUpdateAcknowledged st.replicas replicaId _

theorem syncStep2_spec_witness :
    (handleSyncStep2 sampleState "r1" [sampleWireOp] [] "07" "ck" writeToken
        10 100).1.log = opsInsertAll sampleState.log "r1" [sampleWireOp] ∧
    (handleSyncStep2 sampleState "r1" [sampleWireOp] [] "07" "ck" writeToken
        10 100).2.head? =
      some (.broadcast
        (.opRe [sampleWireOp] [] "r1" (getGlobalAck sampleState.replicas 10 100 []))
        ["ck"]) ∧
    findReplica
        (handleSyncStep2 sampleState "r1" [sampleWireOp] [] "07" "ck" writeToken
          10 100).1.replicas "r1" =
      (findReplica sampleState.replicas "r1").map
        (fun r => { r with ackedLogicalTime := some (raiseAck r.ackedLogicalTime "06") }) := by
  have h :=
    (syncStep2_spec sampleState "r1" [sampleWireOp] [] "07" "ck" writeToken
      10 100).2 (by decide)
  exact ⟨h.2.1, h.2.2.1 (by simp), h.2.2.2⟩

theorem lex_append_self (l : List Char) (c : Char) (cs : List Char) :
    List.Lex (· < ·) l (l ++ c :: cs) := by
  have h := List.Lex.append_left (· < ·)
    (List.Lex.nil : List.Lex (· < ·) [] (c :: cs)) l
  simpa using h

theorem lex_append_lt (l : List Char) {c c' : Char} (h : c < c')
    (t t' : List Char) : List.Lex (· < ·) (l ++ c :: t) (l ++ c' :: t') :=
  List.Lex.append_left _ (List.Lex.rel h) l

theorem strLt_iff_lex (a b : String) :
    strLt a b ↔ List.Lex (· < ·) a.data b.data := Iff.rfl

theorem strLe_of_strLt {a b : String} (h : strLt a b) : strLe a b :=
  fun h2 => (IsAsymm.asymm (r := List.Lex (· < ·)) _ _ h) h2

theorem makeSubOid_data (root fieldPath localId : String) :
    (makeSubOid root fieldPath localId).data =
      root.data ++ '.' :: (fieldPath.data ++ ':' :: localId.data) := by
  simp [makeSubOid, String.data_append]

theorem oidRangeEnd_data (root : String) :
    (root ++ ":\uFFFF").data = root.data ++ ':' :: ['\uFFFF'] := by
  simp [String.data_append]

theorem getOidRange_snd (root : String) :
    (getOidRange root).2 = root ++ ":\uFFFF" := rfl

/-- C9 counterexample: the claim's consequence that OIDs of other roots fall
outside the range fails when one root extends another with a character below
the colon: the sub-OID "test/a0.c:0" of root "test/a0" lies inside
`getOidRange "test/a"` although "test/a0" is a different root. -/
theorem oid_range_other_root_inside :
    ("test/a0" : String) ≠ "test/a" ∧
    makeSubOid "test/a0" "c" "0" = "test/a0.c:0" ∧
    strLe (getOidRange "test/a").1 (makeSubOid "test/a0" "c" "0") ∧
    strLe (makeSubOid "test/a0" "c" "0") (getOidRange "test/a").2 := by
  decide

/-- C9 (amended): `getOidRange r` is exactly the pair of `r` and `r` with a
colon and U+FFFF appended; every sub-object OID generated under `r` lies
byte-wise between the two; and a root `r'` that differs from `r` at some
character position (rather than extending it) lies, together with all its
sub-object OIDs, outside the range. -/
theorem oid_range_spec :
    (∀ root : String, getOidRange root = (root, root ++ ":\uFFFF")) ∧
    (∀ root fieldPath localId : String,
        strLe root (makeSubOid root fieldPath localId) ∧
        strLe (makeSubOid root fieldPath localId) (getOidRange root).2) ∧
    (∀ r r' : String, ∀ pre : List Char, ∀ c c' : Char, ∀ t t' : List Char,
        r.data = pre ++ c :: t → r'.data = pre ++ c' :: t' → c ≠ c' →
        ∀ fieldPath localId : String,
          (strLt r' r ∨ strLt (getOidRange r).2 r') ∧
          (strLt (makeSubOid r' fieldPath localId) r ∨
            strLt (getOidRange r).2 (makeSubOid r' fieldPath localId))) := by
  refine ⟨fun _ => rfl, ?_, ?_⟩
  · intro root fieldPath localId
    constructor
    · apply strLe_of_strLt
      rw [strLt_iff_lex, makeSubOid_data]
      exact lex_append_self _ _ _
    · apply strLe_of_strLt
      rw [strLt_iff_lex, makeSubOid_data, getOidRange_snd, oidRangeEnd_data]
      exact lex_append_lt root.data (by decide) _ _
  · intro r r' pre c c' t t' hr hr' hne fieldPath localId
    rcases lt_or_gt_of_ne hne with hlt | hgt
    · -- c < c' : r' and its sub-OIDs are above the range end
      constructor
      · right
        rw [strLt_iff_lex, getOidRange_snd, oidRangeEnd_data, hr, hr']
        simp only [List.append_assoc, List.cons_append]
        exact lex_append_lt pre hlt _ _
      · right
        rw [strLt_iff_lex, getOidRange_snd, oidRangeEnd_data, makeSubOid_data,
          hr, hr']
        simp only [List.append_assoc, List.cons_append]
        exact lex_append_lt pre hlt _ _
    · -- c' < c : r' and its sub-OIDs are below the range start
      constructor
      · left
        rw [strLt_iff_lex, hr, hr']
        exact lex_append_lt pre hgt _ _
      · left
        rw [strLt_iff_lex, makeSubOid_data, hr, hr']
        simp only [List.append_assoc, List.cons_append]
        exact lex_append_lt pre hgt _ _

theorem oid_range_spec_witness :
    (strLt "test/b" "test/a" ∨ strLt (getOidRange "test/a").2 "test/b") ∧
    (strLt (makeSubOid "test/b" "c" "0") "test/a" ∨
      strLt (getOidRange "test/a").2 (makeSubOid "test/b" "c" "0")) :=
  oid_range_spec.2.2 "test/a" "test/b" ("test/").data 'a' 'b' [] []
    (by decide) (by decide) (by decide) "c" "0"

theorem strLe_refl (a : String) : strLe a a :=
  fun h => (IsAsymm.asymm (r := List.Lex (· < ·)) _ _ h) h

theorem strLe_iff_le (a b : String) : strLe a b ↔ a.data ≤ b.data := not_lt

theorem minS_data (a b : String) : (minS a b).data = min a.data b.data := by
  unfold minS
  split
  · exact (min_eq_right (le_of_lt (by assumption))).symm
  · exact (min_eq_left (not_lt.mp (by assumption))).symm

theorem maxS_data (a b : String) : (maxS a b).data = max a.data b.data := by
  unfold maxS
  split
  · exact (max_eq_right (le_of_lt (by assumption))).symm
  · exact (max_eq_left (not_lt.mp (by assumption))).symm

theorem strLe_maxS_left (a b : String) : strLe a (maxS a b) := by
  rw [strLe_iff_le, maxS_data]
  exact le_max_left _ _

theorem minS_mono {a b m m' : String} (h1 : strLe a b) (h2 : strLe m m') :
    strLe (minS a m) (minS b m') := by
  rw [strLe_iff_le, minS_data, minS_data]
  exact min_le_min ((strLe_iff_le _ _).mp h1) ((strLe_iff_le _ _).mp h2)

theorem regUpdateAcknowledged_eq_map (l : List ReplicaEntry) (rid ts : String) :
    regUpdateAcknowledged l rid ts = l.map (ackRaised rid ts) := rfl

theorem qualifies_ackRaised (now threshold : Nat) (ao : List String)
    (rid ts : String) (r : ReplicaEntry) :
    qualifiesForAck now threshold ao (ackRaised rid ts r) =
      qualifiesForAck now threshold ao r := by
  unfold ackRaised
  split
  · rfl
  · rfl

theorem minString_eq_none_iff (l : List String) : minString l = none ↔ l = [] := by
  cases l with
  | nil => simp [minString]
  | cons s rest =>
    simp only [minString]
    cases minString rest <;> simp

theorem minString_mono {l l' : List String} (h : List.Forall₂ strLe l l') :
    ∀ {p n : String}, minString l = some p → minString l' = some n → strLe p n := by
  induction h with
  | nil => intro p n hp _; simp [minString] at hp
  | @cons a b l₁ l₂ hab htl ih =>
    intro p n hp hn
    cases hm1 : minString l₁ with
    | none =>
      have hl1 : l₁ = [] := (minString_eq_none_iff l₁).mp hm1
      subst hl1
      have hl2 : l₂ = [] := List.forall₂_nil_left_iff.mp htl
      subst hl2
      simp only [minString] at hp hn
      obtain rfl : a = p := by simpa using hp
      obtain rfl : b = n := by simpa using hn
      exact hab
    | some m =>
      cases hm2 : minString l₂ with
      | none =>
        have hl2 : l₂ = [] := (minString_eq_none_iff l₂).mp hm2
        subst hl2
        have hl1 : l₁ = [] := List.forall₂_nil_right_iff.mp htl
        rw [hl1] at hm1
        simp [minString] at hm1
      | some m' =>
        simp only [minString, hm1, hm2] at hp hn
        obtain rfl : minS a m = p := by simpa using hp
        obtain rfl : minS b m' = n := by simpa using hn
        exact minS_mono hab (ih hm1 hm2)

theorem acks_forall₂ (rid ts : String) :
    ∀ l : List ReplicaEntry,
      (∀ r ∈ l, r.ackedLogicalTime.isNone = false) →
      List.Forall₂ strLe (l.filterMap (fun r => r.ackedLogicalTime))
        ((l.map (ackRaised rid ts)).filterMap (fun r => r.ackedLogicalTime)) := by
  intro l
  induction l with
  | nil => intro _; exact List.Forall₂.nil
  | cons r rest ih =>
    intro h
    have hr := h r (List.mem_cons_self _ _)
    have hrest : ∀ x ∈ rest, x.ackedLogicalTime.isNone = false :=
      fun x hx => h x (List.mem_cons_of_mem _ hx)
    cases hack : r.ackedLogicalTime with
    | none => rw [hack] at hr; simp at hr
    | some c =>
      rw [List.map_cons]
      by_cases ht : r.replicaId = rid
      · have h2 : (ackRaised rid ts r).ackedLogicalTime =
            some (raiseAck r.ackedLogicalTime ts) := by
          unfold ackRaised
          rw [if_pos ht]
        rw [List.filterMap_cons_some hack, List.filterMap_cons_some h2]
        refine List.Forall₂.cons ?_ (ih hrest)
        rw [hack]
        exact strLe_maxS_left c ts
      · have h2 : (ackRaised rid ts r).ackedLogicalTime = some c := by
          unfold ackRaised
          rw [if_neg ht, hack]
        rw [List.filterMap_cons_some hack, List.filterMap_cons_some h2]
        exact List.Forall₂.cons (strLe_refl c) (ih hrest)

theorem getGlobalAck_regUpdate_mono (l : List ReplicaEntry) (rid ts : String)
    (now threshold : Nat) (p : String)
    (hp : getGlobalAck l now threshold [] = some p) :
    ∃ n, getGlobalAck (regUpdateAcknowledged l rid ts) now threshold [] = some n ∧
      strLe p n := by
  unfold getGlobalAck at hp ⊢
  have hq' : (regUpdateAcknowledged l rid ts).filter
        (qualifiesForAck now threshold []) =
      (l.filter (qualifiesForAck now threshold [])).map (ackRaised rid ts) := by
    rw [regUpdateAcknowledged_eq_map, List.filter_map]
    congr 1
    exact List.filter_congr
      (fun r _ => qualifies_ackRaised now threshold [] rid ts r)
  rw [hq']
  simp only at hp ⊢
  by_cases he : (l.filter (qualifiesForAck now threshold [])).isEmpty = true
  · rw [if_pos he] at hp; cases hp
  · rw [if_neg he] at hp
    have he' : ((l.filter (qualifiesForAck now threshold [])).map
        (ackRaised rid ts)).isEmpty = false := by
      cases hfq : l.filter (qualifiesForAck now threshold []) with
      | nil => rw [hfq] at he; simp at he
      | cons x xs => simp [hfq]
    rw [if_neg (by rw [he']; exact fun hc => Bool.false_ne_true hc)]
    by_cases ha : (l.filter (qualifiesForAck now threshold [])).any
        (fun r => r.ackedLogicalTime.isNone) = true
    · rw [if_pos ha] at hp; cases hp
    · rw [if_neg ha] at hp
      have hforall : ∀ r ∈ l.filter (qualifiesForAck now threshold []),
          r.ackedLogicalTime.isNone = false := by
        intro r hr
        exact Bool.eq_false_iff.mpr
          (List.any_eq_false.mp (Bool.eq_false_iff.mpr ha) r hr)
      have hf2 := acks_forall₂ rid ts (l.filter (qualifiesForAck now threshold []))
        hforall
      have ha' : ((l.filter (qualifiesForAck now threshold [])).map
          (ackRaised rid ts)).any (fun r => r.ackedLogicalTime.isNone) = false := by
        rw [List.any_eq_false]
        intro x hx
        obtain ⟨r, hr, rfl⟩ := List.mem_map.mp hx
        have := hforall r hr
        unfold ackRaised
        split
        · simp
        · simp [this]
      rw [if_neg (by rw [ha']; exact fun hc => Bool.false_ne_true hc)]
      cases hm2 : ((l.filter (qualifiesForAck now threshold [])).map
          (ackRaised rid ts)).filterMap (fun r => r.ackedLogicalTime) with
      | nil =>
        have h1 : (l.filter (qualifiesForAck now threshold [])).filterMap
            (fun r => r.ackedLogicalTime) = [] :=
          List.forall₂_nil_right_iff.mp (hm2 ▸ hf2)
        rw [h1] at hp
        simp [minString] at hp
      | cons x xs =>
        cases hmn : minString (x :: xs) with
        | none =>
          have := (minString_eq_none_iff (x :: xs)).mp hmn
          cases this
        | some n =>
          exact ⟨n, rfl, minString_mono (hm2 ▸ hf2) hp hmn⟩

/-- C8: an ack message raises the sender's acknowledged timestamp to the
maximum of its current value and the message timestamp, and a `global-ack`
broadcast to all peers is emitted exactly when the global ack strictly
advanced as a result. -/
theorem ack_spec (st : ServerState) (replicaId ts : String)
    (now threshold : Nat) :
    (handleAck st replicaId ts now threshold).1 =
      { st with replicas := regUpdateAcknowledged st.replicas replicaId ts } ∧
    findReplica (handleAck st replicaId ts now threshold).1.replicas replicaId =
      (findReplica st.replicas replicaId).map
        (fun r =>
          { r with ackedLogicalTime := some (raiseAck r.ackedLogicalTime ts) }) ∧
    (handleAck st replicaId ts now threshold).2 =
      (match getGlobalAck (regUpdateAcknowledged st.replicas replicaId ts)
          now threshold [] with
       | some n =>
         if ackAdvanced (getGlobalAck st.replicas now threshold []) (some n) then
           [.broadcast (.globalAckMsg n) []]
         else []
       | none => []) := by
  refine ⟨rfl, findReplica_regUpdateAcknowledged st.replicas replicaId ts, ?_⟩
  show (slUpdateAcknowledged st replicaId ts now threshold).2 = _
  unfold slUpdateAcknowledged
  simp only
  cases hnew : getGlobalAck (regUpdateAcknowledged st.replicas replicaId ts)
      now threshold [] with
  | none => rfl
  | some n =>
    dsimp only
    cases hprior : getGlobalAck st.replicas now threshold [] with
    | none =>
      rw [if_pos (by simp)]
      rfl
    | some p =>
      obtain ⟨n', hn', hle⟩ :=
        getGlobalAck_regUpdate_mono st.replicas replicaId ts now threshold p hprior
      rw [hnew] at hn'
      have hnn : n = n' := Option.some.inj hn'
      subst hnn
      by_cases hpn : p = n
      · subst hpn
        rw [if_neg (by simp)]
        show ([] : List OutMessage) = if ackAdvanced (some p) (some p) = true
          then [.broadcast (.globalAckMsg p) []] else []
        have hfalse : ackAdvanced (some p) (some p) = false := by
          unfold ackAdvanced
          exact decide_eq_false (strLe_refl p)
        rw [hfalse]
        rfl
      · rw [if_pos (by simp [hpn])]
        have hlt : strLt p n := by
          have hd := (strLe_iff_le _ _).mp hle
          have hne : p.data ≠ n.data := fun hdd => hpn (String.toList_inj.mp hdd)
          exact lt_of_le_of_ne hd hne
        have htrue : ackAdvanced (some p) (some n) = true := by
          unfold ackAdvanced
          exact decide_eq_true hlt
        rw [htrue]
        rfl

theorem bucketGet_cons_eq (k0 : String) (l0 : List ServerOp)
    (rest : List (String × List ServerOp)) (k : String) (h : k0 = k) :
    bucketGet ((k0, l0) :: rest) k = some l0 := by
  unfold bucketGet
  rw [List.find?_cons_of_pos _ (by simpa using h)]
  rfl

theorem bucketGet_cons_ne (k0 : String) (l0 : List ServerOp)
    (rest : List (String × List ServerOp)) (k : String) (h : ¬ k0 = k) :
    bucketGet ((k0, l0) :: rest) k = bucketGet rest k := by
  unfold bucketGet
  rw [List.find?_cons_of_neg _ (by simpa using h)]

theorem bucketGet_bucketAdd (buckets : List (String × List ServerOp))
    (oid : String) (op : ServerOp) (k : String) :
    bucketGet (bucketAdd buckets oid op) k =
      if k = oid then some ((bucketGet buckets k).getD [] ++ [op])
      else bucketGet buckets k := by
  induction buckets with
  | nil =>
    by_cases h : k = oid
    · subst h
      rw [if_pos rfl]
      show bucketGet ((k, [op]) :: []) k = _
      rw [bucketGet_cons_eq _ _ _ _ rfl]
      rfl
    · rw [if_neg h]
      show bucketGet ((oid, [op]) :: []) k = _
      rw [bucketGet_cons_ne _ _ _ _ (fun hh => h hh.symm)]
  | cons hd rest ih =>
    obtain ⟨k0, l0⟩ := hd
    show bucketGet (bucketAdd ((k0, l0) :: rest) oid op) k = _
    unfold bucketAdd
    by_cases h0 : k0 = oid
    · rw [if_pos h0]
      by_cases hk : k0 = k
      · rw [if_pos ((hk.symm).trans h0)]
        rw [bucketGet_cons_eq _ _ _ _ hk, bucketGet_cons_eq _ _ _ _ hk]
        rfl
      · rw [if_neg (fun hh : k = oid => hk (by rw [h0, ← hh]))]
        rw [bucketGet_cons_ne _ _ _ _ hk, bucketGet_cons_ne _ _ _ _ hk]
    · rw [if_neg h0]
      by_cases hk : k0 = k
      · rw [if_neg (fun hh : k = oid => h0 (by rw [hk, hh]))]
        rw [bucketGet_cons_eq _ _ _ _ hk, bucketGet_cons_eq _ _ _ _ hk]
      · rw [bucketGet_cons_ne _ _ _ _ hk, bucketGet_cons_ne _ _ _ _ hk]
        exact ih

theorem bucketGet_groupFold (l : List ServerOp) :
    ∀ (buckets : List (String × List ServerOp)) (k : String),
      bucketGet (groupFold buckets l) k =
        match bucketGet buckets k with
        | some e => some (e ++ l.filter (fun o => o.oid = k))
        | none =>
          if l.filter (fun o => o.oid = k) = [] then none
          else some (l.filter (fun o => o.oid = k)) := by
  induction l with
  | nil =>
    intro buckets k
    cases h : bucketGet buckets k <;> simp [groupFold, h]
  | cons o l ih =>
    intro buckets k
    show bucketGet (groupFold (bucketAdd buckets o.oid o) l) k = _
    rw [ih, bucketGet_bucketAdd]
    by_cases hk : k = o.oid
    · rw [if_pos hk]
      have hfil : (o :: l).filter (fun x => x.oid = k) =
          o :: l.filter (fun x => x.oid = k) :=
        List.filter_cons_of_pos (by simpa using hk.symm)
      rw [hfil]
      cases h : bucketGet buckets k with
      | some e => simp
      | none => simp
    · rw [if_neg hk]
      have hfil : (o :: l).filter (fun x => x.oid = k) =
          l.filter (fun x => x.oid = k) :=
        List.filter_cons_of_neg (by simpa using fun hh => hk hh.symm)
      rw [hfil]

theorem bucketGet_groupFold_none (l : List ServerOp)
    (buckets : List (String × List ServerOp)) (k : String)
    (h : bucketGet buckets k = none) :
    bucketGet (groupFold buckets l) k =
      if l.filter (fun o => o.oid = k) = [] then none
      else some (l.filter (fun o => o.oid = k)) := by
  rw [bucketGet_groupFold l buckets k, h]

theorem rebaseCollect_all (T : String) :
    ∀ (l : List ServerOp) (buckets : List (String × List ServerOp)),
      (∀ o ∈ l, strLt o.timestamp T) →
      rebaseCollect T l buckets [] = (groupFold buckets l, []) := by
  intro l
  induction l with
  | nil => intro buckets _; rfl
  | cons op l ih =>
    intro buckets h
    have hcond : (!(List.contains ([] : List String) op.oid) &&
        decide (strLt op.timestamp T)) = true := by
      simp [h op (List.mem_cons_self _ _)]
    rw [rebaseCollect, if_pos hcond]
    exact ih (bucketAdd buckets op.oid op)
      (fun o ho => h o (List.mem_cons_of_mem _ ho))

theorem mem_getBefore_iff (T : String) (log : List ServerOp) (o : ServerOp) :
    o ∈ getBefore T log ↔ o ∈ log ∧ strLt o.timestamp T := by
  unfold getBefore sortOps
  rw [List.mem_insertionSort, List.mem_filter]
  simp

theorem mem_groupFold_self (l : List ServerOp) (x : ServerOp) (hx : x ∈ l) :
    ∃ p ∈ groupFold ([] : List (String × List ServerOp)) l, x ∈ p.2 := by
  have hmem : x ∈ l.filter (fun o => o.oid = x.oid) :=
    List.mem_filter.mpr ⟨hx, by simp⟩
  have hne : l.filter (fun o => o.oid = x.oid) ≠ [] := by
    intro hnil
    rw [hnil] at hmem
    cases hmem
  have h2 := bucketGet_groupFold_none l [] x.oid rfl
  rw [if_neg hne] at h2
  unfold bucketGet at h2
  cases hf : (groupFold [] l).find? (fun p => p.1 = x.oid) with
  | none => rw [hf] at h2; cases h2
  | some p =>
    rw [hf] at h2
    refine ⟨p, List.mem_of_find?_eq_some hf, ?_⟩
    have hp2 : p.2 = l.filter (fun o => o.oid = x.oid) := by simpa using h2
    rw [hp2]
    exact hmem

theorem bucketKeys_bucketAdd (buckets : List (String × List ServerOp))
    (oid : String) (op : ServerOp) :
    bucketKeys (bucketAdd buckets oid op) =
      if oid ∈ bucketKeys buckets then bucketKeys buckets
      else bucketKeys buckets ++ [oid] := by
  induction buckets with
  | nil => simp [bucketKeys, bucketAdd]
  | cons hd rest ih =>
    obtain ⟨k0, l0⟩ := hd
    show bucketKeys (bucketAdd ((k0, l0) :: rest) oid op) = _
    unfold bucketAdd
    by_cases h0 : k0 = oid
    · rw [if_pos h0]
      subst h0
      simp [bucketKeys]
    · rw [if_neg h0]
      show k0 :: bucketKeys (bucketAdd rest oid op) = _
      rw [ih]
      by_cases hm : oid ∈ bucketKeys rest
      · rw [if_pos hm,
          if_pos (show oid ∈ bucketKeys ((k0, l0) :: rest) from
            List.mem_cons_of_mem _ hm)]
        rfl
      · rw [if_neg hm,
          if_neg (show oid ∉ bucketKeys ((k0, l0) :: rest) from by
            intro hmem
            rcases List.mem_cons.mp hmem with hh | hh
            · exact h0 hh.symm
            · exact hm hh)]
        rfl

theorem nodup_bucketKeys_groupFold (l : List ServerOp) :
    ∀ buckets : List (String × List ServerOp),
      (bucketKeys buckets).Nodup → (bucketKeys (groupFold buckets l)).Nodup := by
  induction l with
  | nil => intro buckets h; exact h
  | cons o l ih =>
    intro buckets h
    show (bucketKeys (groupFold (bucketAdd buckets o.oid o) l)).Nodup
    apply ih
    rw [bucketKeys_bucketAdd]
    by_cases hm : o.oid ∈ bucketKeys buckets
    · rw [if_pos hm]; exact h
    · rw [if_neg hm]
      refine List.Nodup.append h (List.nodup_singleton _) ?_
      intro a ha hb
      rw [List.mem_singleton] at hb
      subst hb
      exact hm ha

theorem findBaseline_cons_eq (x : Baseline) (rest : List Baseline) (k : String)
    (h : x.oid = k) : findBaseline (x :: rest) k = some x := by
  unfold findBaseline
  rw [List.find?_cons_of_pos _ (by simpa using h)]

theorem findBaseline_cons_ne (x : Baseline) (rest : List Baseline) (k : String)
    (h : ¬ x.oid = k) : findBaseline (x :: rest) k = findBaseline rest k := by
  unfold findBaseline
  rw [List.find?_cons_of_neg _ (by simpa using h)]

theorem findBaseline_map_replace (bs : List Baseline) (b : Baseline) (k : String) :
    findBaseline (bs.map (fun x => if x.oid = b.oid then b else x)) k =
      if k = b.oid then
        (if bs.any (fun x => x.oid = b.oid) then some b else none)
      else findBaseline bs k := by
  induction bs with
  | nil =>
    by_cases h : k = b.oid <;> simp [findBaseline, h]
  | cons x rest ih =>
    rw [List.map_cons]
    by_cases hx : x.oid = b.oid
    · rw [if_pos hx]
      by_cases hk : k = b.oid
      · rw [findBaseline_cons_eq b _ k hk.symm, if_pos hk]
        have hany : (x :: rest).any (fun y => y.oid = b.oid) = true := by
          simp [hx]
        rw [hany]
        rfl
      · rw [if_neg hk, findBaseline_cons_ne b _ k (fun hh => hk hh.symm),
          findBaseline_cons_ne x rest k (fun hh => hk (hh ▸ hx)), ih, if_neg hk]
    · rw [if_neg hx]
      by_cases hxk : x.oid = k
      · rw [findBaseline_cons_eq x _ k hxk,
          if_neg (fun hh => hx (hxk.trans hh)),
          findBaseline_cons_eq x rest k hxk]
      · rw [findBaseline_cons_ne x _ k hxk, ih]
        by_cases hk : k = b.oid
        · rw [if_pos hk, if_pos hk]
          have hany : (x :: rest).any (fun y => y.oid = b.oid) =
              rest.any (fun y => y.oid = b.oid) := by
            simp [hx]
          rw [hany]
        · rw [if_neg hk, if_neg hk, findBaseline_cons_ne x rest k hxk]

theorem findBaseline_upsert (bs : List Baseline) (b : Baseline) (k : String) :
    findBaseline (upsertBaseline bs b) k =
      if k = b.oid then some b else findBaseline bs k := by
  unfold upsertBaseline
  by_cases hany : bs.any (fun x => x.oid = b.oid) = true
  · rw [if_pos hany, findBaseline_map_replace, hany]
    by_cases hk : k = b.oid
    · rw [if_pos hk, if_pos hk]
      rfl
    · rw [if_neg hk, if_neg hk]
  · rw [if_neg hany]
    by_cases hk : k = b.oid
    · rw [if_pos hk]
      have h1 : bs.find? (fun bl => bl.oid = k) = none := by
        rw [List.find?_eq_none]
        intro x hx
        simp only [decide_eq_true_eq]
        intro hxk
        exact hany (List.any_eq_true.mpr ⟨x, hx, by simp [hxk, ← hk]⟩)
      unfold findBaseline
      rw [List.find?_append, h1]
      rw [List.find?_cons_of_pos _ (by simpa using hk.symm)]
      rfl
    · rw [if_neg hk]
      unfold findBaseline
      rw [List.find?_append]
      have h2 : List.find? (fun bl => bl.oid = k) [b] = none := by
        rw [List.find?_eq_none]
        intro x hx
        rw [List.mem_singleton] at hx
        subst hx
        simpa using fun hh => hk hh.symm
      rw [h2]
      cases bs.find? (fun bl => bl.oid = k) <;> rfl

theorem findBaseline_applyB_self (bs : List Baseline) (oid : String)
    (ops : List ServerOp) :
    findBaseline (applyOperationsB bs oid ops) oid =
      some { oid := oid,
             snapshot := applyOps ((findBaseline bs oid).map Baseline.snapshot) ops,
             timestamp := maxTs ops } := by
  unfold applyOperationsB
  rw [findBaseline_upsert]
  rw [if_pos rfl]

theorem findBaseline_applyB_other (bs : List Baseline) (oid : String)
    (ops : List ServerOp) (k : String) (h : ¬ k = oid) :
    findBaseline (applyOperationsB bs oid ops) k = findBaseline bs k := by
  unfold applyOperationsB
  rw [findBaseline_upsert]
  rw [if_neg h]

theorem foldl_rebaseStep_components (buckets : List (String × List ServerOp)) :
    ∀ st : ServerState,
      (buckets.foldl rebaseStep st).log =
        buckets.foldl (fun l p => dropAll l p.2) st.log ∧
      (buckets.foldl rebaseStep st).baselines =
        buckets.foldl (fun bs p => applyOperationsB bs p.1 p.2) st.baselines := by
  induction buckets with
  | nil => intro st; exact ⟨rfl, rfl⟩
  | cons p rest ih => intro st; exact ih (rebaseStep st p)

theorem mem_foldl_dropAll (buckets : List (String × List ServerOp)) :
    ∀ (log : List ServerOp) (o : ServerOp),
      o ∈ buckets.foldl (fun l p => dropAll l p.2) log →
      o ∈ log ∧ ∀ p ∈ buckets, ∀ d ∈ p.2,
        ¬(d.oid = o.oid ∧ d.timestamp = o.timestamp) := by
  induction buckets with
  | nil =>
    intro log o h
    exact ⟨h, by intro p hp; cases hp⟩
  | cons q rest ih =>
    intro log o h
    obtain ⟨h1, h2⟩ := ih (dropAll log q.2) o h
    have h3 := List.mem_filter.mp h1
    refine ⟨h3.1, ?_⟩
    intro p hp d hd
    rcases List.mem_cons.mp hp with rfl | hp'
    · intro ⟨hoid, hts⟩
      have h4 := h3.2
      have hany : p.2.any
          (fun d' => d'.oid = o.oid && d'.timestamp = o.timestamp) = true :=
        List.any_eq_true.mpr ⟨d, hd, by simp [hoid, hts]⟩
      simp [hany] at h4
    · exact h2 p hp' d hd

theorem findBaseline_foldl_applyB_preserve
    (buckets : List (String × List ServerOp)) :
    ∀ (bs : List Baseline) (k : String), k ∉ bucketKeys buckets →
      findBaseline (buckets.foldl (fun bs p => applyOperationsB bs p.1 p.2) bs) k =
        findBaseline bs k := by
  induction buckets with
  | nil => intro bs k _; rfl
  | cons p rest ih =>
    intro bs k hk
    have hk1 : ¬ k = p.1 := fun hh => hk (by rw [hh]; exact List.mem_cons_self _ _)
    have hk2 : k ∉ bucketKeys rest := fun hh => hk (List.mem_cons_of_mem _ hh)
    show findBaseline
        (rest.foldl (fun bs p => applyOperationsB bs p.1 p.2)
          (applyOperationsB bs p.1 p.2)) k = _
    rw [ih _ k hk2]
    exact findBaseline_applyB_other bs p.1 p.2 k hk1

theorem findBaseline_foldl_applyB_at (buckets : List (String × List ServerOp)) :
    ∀ (bs : List Baseline) (k : String) (ops : List ServerOp),
      (bucketKeys buckets).Nodup →
      bucketGet buckets k = some ops →
      findBaseline (buckets.foldl (fun bs p => applyOperationsB bs p.1 p.2) bs) k =
        some { oid := k,
               snapshot := applyOps ((findBaseline bs k).map Baseline.snapshot) ops,
               timestamp := maxTs ops } := by
  induction buckets with
  | nil =>
    intro bs k ops _ hbg
    cases hbg
  | cons p rest ih =>
    intro bs k ops hnd hbg
    obtain ⟨k0, l0⟩ := p
    by_cases hk : k0 = k
    · subst hk
      rw [bucketGet_cons_eq _ _ _ _ rfl] at hbg
      have hops : ops = l0 := (Option.some.inj hbg).symm
      subst hops
      have hk0 : k0 ∉ bucketKeys rest :=
        (List.nodup_cons.mp (show (k0 :: bucketKeys rest).Nodup from hnd)).1
      show findBaseline
          (rest.foldl (fun bs p => applyOperationsB bs p.1 p.2)
            (applyOperationsB bs k0 ops)) k0 = _
      rw [findBaseline_foldl_applyB_preserve rest _ k0 hk0]
      exact findBaseline_applyB_self bs k0 ops
    · rw [bucketGet_cons_ne _ _ _ _ hk] at hbg
      have hnd' : (bucketKeys rest).Nodup :=
        (List.nodup_cons.mp (show (k0 :: bucketKeys rest).Nodup from hnd)).2
      show findBaseline
          (rest.foldl (fun bs p => applyOperationsB bs p.1 p.2)
            (applyOperationsB bs k0 l0)) k = _
      rw [ih _ k ops hnd' hbg,
        findBaseline_applyB_other bs k0 l0 k (fun hh => hk hh.symm)]

theorem pairwise_getBefore (T : String) (log : List ServerOp) :
    List.Pairwise tsLe (getBefore T log) :=
  List.sorted_insertionSort tsLe _

theorem pairwise_droppedFor (T : String) (log : List ServerOp) (k : String) :
    List.Pairwise tsLe (droppedFor T log k) :=
  List.Pairwise.sublist (List.filter_sublist _) (pairwise_getBefore T log)

/-- C1: a rebase pass with non-null global ack `T` leaves no operation with
timestamp below `T` in the log, and for every OID that had such operations
the new baseline is exactly those operations, in ascending HLC order, folded
onto the prior baseline, stamped with their maximum timestamp; a null global
ack leaves the state untouched and sends nothing. -/
theorem rebase_pass_spec (st : ServerState) (now threshold : Nat) :
    (getGlobalAck st.replicas now threshold (activePresenceIds st) = none →
      rebase st now threshold = (st, [])) ∧
    (∀ T, getGlobalAck st.replicas now threshold (activePresenceIds st) = some T →
      (∀ o ∈ (rebase st now threshold).1.log, ¬ strLt o.timestamp T) ∧
      (∀ k, droppedFor T st.log k ≠ [] →
        findBaseline (rebase st now threshold).1.baselines k =
          some { oid := k,
                 snapshot := applyOps
                   ((findBaseline st.baselines k).map Baseline.snapshot)
                   (droppedFor T st.log k),
                 timestamp := maxTs (droppedFor T st.log k) } ∧
        List.Pairwise tsLe (droppedFor T st.log k))) := by
  constructor
  · intro h
    unfold rebase
    rw [h]
  · intro T hT
    have hops : ∀ o ∈ getBefore T st.log, strLt o.timestamp T :=
      fun o ho => ((mem_getBefore_iff T st.log o).mp ho).2
    have hcollect := rebaseCollect_all T (getBefore T st.log) [] hops
    have hreb1 : (rebase st now threshold).1 =
        (groupFold [] (getBefore T st.log)).foldl rebaseStep st := by
      unfold rebase
      rw [hT]
      show (((rebaseCollect T (getBefore T st.log) [] []).1).foldl rebaseStep st, _).1 = _
      rw [hcollect]
    have hlog : (rebase st now threshold).1.log =
        (groupFold [] (getBefore T st.log)).foldl (fun l p => dropAll l p.2) st.log := by
      rw [hreb1]
      exact (foldl_rebaseStep_components _ st).1
    have hbase : (rebase st now threshold).1.baselines =
        (groupFold [] (getBefore T st.log)).foldl
          (fun bs p => applyOperationsB bs p.1 p.2) st.baselines := by
      rw [hreb1]
      exact (foldl_rebaseStep_components _ st).2
    constructor
    · intro o ho hstrlt
      rw [hlog] at ho
      obtain ⟨hmem, hno⟩ := mem_foldl_dropAll _ _ _ ho
      have hgb : o ∈ getBefore T st.log :=
        (mem_getBefore_iff T st.log o).mpr ⟨hmem, hstrlt⟩
      obtain ⟨p, hp, hop⟩ := mem_groupFold_self _ o hgb
      exact hno p hp o hop ⟨rfl, rfl⟩
    · intro k hk
      have hk' : (getBefore T st.log).filter (fun o => o.oid = k) ≠ [] := hk
      have hbg : bucketGet (groupFold [] (getBefore T st.log)) k =
          some (droppedFor T st.log k) := by
        unfold droppedFor
        rw [bucketGet_groupFold_none (getBefore T st.log) [] k rfl, if_neg hk']
      have hnd := nodup_bucketKeys_groupFold (getBefore T st.log) [] List.nodup_nil
      refine ⟨?_, pairwise_droppedFor T st.log k⟩
      rw [hbase]
      exact findBaseline_foldl_applyB_at _ st.baselines k _ hnd hbg

theorem rebase_pass_spec_witness :
    findBaseline (rebase sampleState 10 100).1.baselines "items/a" =
      some { oid := "items/a",
             snapshot := applyOps
               ((findBaseline sampleState.baselines "items/a").map Baseline.snapshot)
               (droppedFor "05" sampleState.log "items/a"),
             timestamp := maxTs (droppedFor "05" sampleState.log "items/a") } ∧
    List.Pairwise tsLe (droppedFor "05" sampleState.log "items/a") :=
  ((rebase_pass_spec sampleState 10 100).2 "05" (by decide)).2 "items/a" (by decide)

/-- C10: a delivery carrying no operations and no baselines produces no
`op-re` rebroadcast: the broadcast is skipped entirely for an `op` message
with an empty operations array and for a `sync-step2` with both lists empty. -/
theorem empty_delivery_no_op_rebroadcast (st : ServerState)
    (replicaId clientKey : String) (info : TokenInfo) (now threshold : Nat)
    (msgTimestamp : String) :
    ((handleOperation st replicaId [] clientKey info now threshold).2.all
        (fun m => !m.isOpReMsg)) = true ∧
    ((handleSyncStep2 st replicaId [] [] msgTimestamp clientKey info
        now threshold).2.all (fun m => !m.isOpReMsg)) = true := by
  constructor
  · unfold handleOperation
    split
    · simp [rebroadcastOperations, OutMessage.isOpReMsg, ServerPayload.isOpRe]
    · simp [OutMessage.isOpReMsg, ServerPayload.isOpRe]
  · unfold handleSyncStep2
    split
    · simp only [rebroadcastOperations, List.isEmpty_nil, Bool.and_self, if_true,
        List.nil_append, slUpdateAcknowledged]
      split
      · split
        · simp [OutMessage.isOpReMsg, ServerPayload.isOpRe]
        · simp
      · simp
    · simp [OutMessage.isOpReMsg, ServerPayload.isOpRe]

end Verdant
